import Mathlib

/-!
Verification of the retrieval / index-management subsystem of the LLM-RAG
repository (Streamlit + LangChain + Chroma application answering questions
about a Plato corpus).

The Python sources under `src/utils` are shallowly embedded:

* pure string manipulation (`normalize_collection_name`, provider dispatch)
  becomes pure Lean functions on `String` / `List Char`;
* the corpus JSON file and its parse outcome become an explicit
  `ReadResult` value (missing / malformed / parsed entries);
* the process-wide corpus cache `_PLATO_DOCS_CACHE` becomes explicit state
  of type `Option (List Document)` threaded through calls;
* the persisted Chroma store becomes `Option (List Document)` (its entries,
  in insertion order; `none` = no store directory at the persistence path);
* Python exceptions become `Except` results or explicit failure flags in an
  `Env` record (one flag per operation that the source wraps in
  `try`/`except`).

Python's `str.lower` / `str.isalnum` are Unicode-aware; the embedding models
the ASCII fragment with `Char.toLower` / `Char.isAlphanum`, which agree with
Python on ASCII provider names (all concrete names in the repository are
ASCII).
-/

namespace LLMRag

/-! ## `normalize_collection_name` (src/utils/vectorstore_handler.py, lines 38-56) -/

/-- One character of Python's `s.replace(a, b)` for single-character
patterns. -/
def replaceChar (a b : Char) (s : List Char) : List Char :=
  s.map fun c => if c = a then b else c

/-- The character set ChromaDB accepts, as filtered by the source:
`c.isalnum() or c in "._-"`. -/
def chromaSafe (c : Char) : Bool :=
  c.isAlphanum || c = '.' || c = '_' || c = '-'

/-- Characters removed from both ends by `normalized.strip("._-")`. -/
def stripChar (c : Char) : Bool :=
  c = '.' || c = '_' || c = '-'

/-- Python's `s.strip(chars)`: drop characters satisfying `p` from both
ends. -/
def stripEnds (p : Char → Bool) (l : List Char) : List Char :=
  ((l.dropWhile p).reverse.dropWhile p).reverse

/-- Embedding of `normalize_collection_name` from
`src/utils/vectorstore_handler.py`:
lowercase, replace spaces and hyphens with underscores, keep only
alphanumerics and `._-`, strip `._-` from both ends, prefix with
`platonic_`. -/
def normalize_collection_name (provider : String) : String :=
  let normalized := replaceChar '-' '_' (replaceChar ' ' '_' (provider.data.map Char.toLower))
  let filtered := normalized.filter chromaSafe
  "platonic_" ++ String.mk (stripEnds stripChar filtered)

/-! ## `get_embeddings` (src/utils/vectorstore_handler.py, lines 61-87)

Constructing the embedding object is modelled as a success/failure outcome:
the claims only need to know whether provider resolution raises.  The
`google_api_key` flag models whether `GOOGLE_API_KEY` is set in the
environment. -/

def get_embeddings (model_provider : String) (google_api_key : Bool) : Except String Unit :=
  if model_provider = "Spanish LLM" then .ok ()
  else if model_provider = "Groq" then .ok ()
  else if model_provider = "Gemini" then
    if google_api_key then .ok ()
    else .error "GOOGLE_API_KEY not found in environment variables"
  else .error ("Unsupported provider: " ++ model_provider)

/-- `PERSIST_DIR.get(model_provider, f"./data/...")` from
`src/utils/vectorstore_handler.py` lines 24-28 and 121. -/
def persist_path (model_provider : String) : String :=
  if model_provider = "Spanish LLM" then "./data/spanish_vector_store.chroma"
  else "./data/" ++ String.mk (replaceChar ' ' '_' (model_provider.data.map Char.toLower)) ++ "_store.chroma"

example : normalize_collection_name "Spanish LLM" = "platonic_spanish_llm" := by decide
example : normalize_collection_name "-" = "platonic_" := by decide
example : normalize_collection_name "Groq" = "platonic_groq" := by decide

/-! ## Data model: LangChain `Document`

One record type covers both corpus documents (built by `load_platon_json`)
and upload documents (built inside `get_or_create_vectorstore`); fields that
only one kind of document carries are `Option`s (`none` = key absent from
the Python metadata dict). -/

structure Document where
  page_content : String
  source : String
  chunk_id : Nat
  titulo : Option String := none
  tipo : Option String := none
  dialogo : Option String := none
  libro : Option String := none
  conceptos : Option String := none
  complejidad_sintactica : Option Int := none
  type : Option String := none
  provider : Option String := none
  timestamp : Option String := none
deriving Repr, DecidableEq

/-- `enumMap f 0 l` is Python's `[f(i, x) for i, x in enumerate(l)]`. -/
def enumMap (f : Nat → α → β) : Nat → List α → List β
  | _, [] => []
  | i, a :: as => f i a :: enumMap f (i + 1) as

/-! ## Corpus loader (src/utils/json_ingestor.py) -/

/-- One entry of the Plato analysis JSON array.  Every field the source
reads with `.get(..., default)` is an `Option` (`none` = key missing).
`conceptos_filosoficos` is a list of concept dicts, each read with
`c.get('concepto', '')`; `avg_sentence_length` stands for the nested
`analisis_spacy.complejidad_sintactica.avg_sentence_length` lookup chain,
`none` when any level is missing. -/
structure PlatonItem where
  titulo : Option String := none
  tipo : Option String := none
  texto : Option String := none
  dialogo : Option String := none
  libro : Option String := none
  conceptos_filosoficos : Option (List (Option String)) := none
  avg_sentence_length : Option Int := none
deriving Repr, DecidableEq

/-- State of the corpus file on disk as seen by
`open(filepath)` + `json.load`: missing file, unparseable content, or a
parsed array of entries. -/
inductive ReadResult where
  | missing
  | malformed
  | parsed (data : List PlatonItem)
deriving Repr, DecidableEq

/-- The metadata dict built for entry `i` of the corpus
(src/utils/json_ingestor.py lines 40-68). -/
def mkPlatonDoc (i : Nat) (item : PlatonItem) : Document :=
  { page_content := item.texto.getD ""
    source := "platon_analisis_nlp.json"
    chunk_id := i
    titulo := some (item.titulo.getD "Unknown")
    tipo := some (item.tipo.getD "fragment")
    dialogo := some (item.dialogo.getD "")
    libro := some (item.libro.getD "")
    conceptos := some (match item.conceptos_filosoficos with
      | some cs => String.intercalate ", " (cs.map fun c => c.getD "")
      | none => "")
    complejidad_sintactica := some (item.avg_sentence_length.getD 0) }

/-- Embedding of `load_platon_json` (src/utils/json_ingestor.py lines
12-74).  `open` raising `FileNotFoundError` and `json.load` raising a
decode error both surface as `Except.error`; a parsed file producing zero
documents raises `ValueError`. -/
def load_platon_json (filepath : String) : ReadResult → Except String (List Document)
  | .missing => .error ("FileNotFoundError: " ++ filepath)
  | .malformed => .error "json.JSONDecodeError"
  | .parsed data =>
    let documents := enumMap mkPlatonDoc 0 data
    if documents.isEmpty then .error ("No documents loaded from " ++ filepath)
    else .ok documents

/-- `PLATON_JSON_PATH` (src/utils/vectorstore_handler.py line 33). -/
def PLATON_JSON_PATH : String := "./data/platon_analisis_nlp.json"

/-! ## Corpus cache (src/utils/vectorstore_handler.py lines 92-109)

`_PLATO_DOCS_CACHE` is explicit state: `none` = cache not populated yet.
`get_plato_documents` returns the documents together with the updated cache;
the `try`/`except` around `load_platon_json` makes the function total — a
load failure caches and returns the empty list. -/

def get_plato_documents (cache : Option (List Document)) (file : ReadResult) :
    List Document × Option (List Document) :=
  match cache with
  | some docs => (docs, some docs)
  | none =>
    match load_platon_json PLATON_JSON_PATH file with
    | .ok docs => (docs, some docs)
    | .error _ => ([], some [])

/-- `n` successive calls of `get_plato_documents` in one process whose
corpus file is in state `file`.  Returns the list of per-call results, the
final cache, and how many times the loader (`load_platon_json`) was
invoked — it is invoked exactly when the cache is empty at call time. -/
def runPlatoCalls (file : ReadResult) : Nat → Option (List Document) →
    List (List Document) × Option (List Document) × Nat
  | 0, cache => ([], cache, 0)
  | n + 1, cache =>
    let invoked := cache.isNone
    let (docs, cache') := get_plato_documents cache file
    let (rest, cfin, k) := runPlatoCalls file n cache'
    (docs :: rest, cfin, (if invoked then 1 else 0) + k)

example :
    load_platon_json PLATON_JSON_PATH (.parsed [{ texto := some "t" }]) =
      .ok [{ page_content := "t", source := "platon_analisis_nlp.json", chunk_id := 0,
             titulo := some "Unknown", tipo := some "fragment", dialogo := some "",
             libro := some "", conceptos := some "", complejidad_sintactica := some 0 }] := by
  rfl

/-! ## Chunker (src/utils/pdf_handler.py, `get_text_chunks`) -/

/-- Hard-split a character list into segments of at most 5000 characters
with consecutive segments overlapping in 500 characters (step 4500).
Structural recursion on a fuel argument so that the definition reduces
definitionally; `splitChunks` supplies `cs.length` as fuel, which always
suffices since each step shortens the list by 4500. -/
def splitChunksFuel : Nat → List Char → List (List Char)
  | 0, cs => [cs]
  | fuel + 1, cs =>
    if cs.length ≤ 5000 then [cs]
    else cs.take 5000 :: splitChunksFuel fuel (cs.drop 4500)

/-- See `splitChunksFuel`. -/
def splitChunks (cs : List Char) : List (List Char) :=
  splitChunksFuel cs.length cs

/-- A list of at most 5000 characters is a single chunk, whatever the
fuel. -/
lemma splitChunksFuel_short (fuel : Nat) (cs : List Char) (h : cs.length ≤ 5000) :
    splitChunksFuel fuel cs = [cs] := by
  cases fuel with
  | zero => rfl
  | succ n =>
    simp only [splitChunksFuel]
    rw [if_pos h]

/-- Modelled from the spec: `get_text_chunks` (src/utils/pdf_handler.py
lines 21-30) delegates entirely to
`langchain_text_splitters.RecursiveCharacterTextSplitter(chunk_size=5000,
chunk_overlap=500).split_text`, an external library whose code is not part
of this repository.  Following the spec's Chunker contract (§4.1): empty
input yields the empty sequence, text of at most `chunk_size` characters
yields the single chunk equal to the text, longer text is split into
overlapping fixed-size segments, deterministically. -/
def get_text_chunks (text : String) : List String :=
  if text.data.isEmpty then [] else (splitChunks text.data).map String.mk

/-! ## Upload ingestion (src/utils/vectorstore_handler.py lines 169-193) -/

/-- An uploaded file: its `.name` attribute and the outcome of
`get_pdf_text([pdf])` — `none` when the external PDF text extraction (or
the subsequent chunking) raises. -/
structure UploadedFile where
  name : String
  text : Option String
deriving Repr, DecidableEq

/-- The `Document` built for chunk `i` of an uploaded PDF
(src/utils/vectorstore_handler.py lines 175-187).  `ts` stands for
`str(datetime.now())`. -/
def mkUploadDoc (provider ts name : String) (i : Nat) (chunk : String) : Document :=
  { page_content := chunk
    source := "uploaded_pdf_" ++ name
    chunk_id := i
    type := some "user_pdf"
    provider := some provider
    timestamp := some ts }

/-- Console messages printed by `get_or_create_vectorstore`, kept as an
observable log so that theorems can state which operations ran. -/
inductive LogEvent where
  | loadingExisting
  | creatingNew
  | errorLoadingStore
  | addingPlato (n : Nat)
  | platoAlreadyLoaded
  | addingPDF (name : String) (n : Nat)
  | errorProcessingPDFs
  | noNewDocuments
  | creatingEmptyStructure
  | createdNew (n : Nat)
  | errorCreating
  | usingInMemory
  | addedToExisting (n : Nat)
  | errorAdding
deriving Repr, DecidableEq

/-- The upload loop (src/utils/vectorstore_handler.py lines 169-193).  The
single `try` wraps the whole `for` loop, so the first failing file aborts
processing: documents of files before it are kept (they were already
extended into `documents_to_add`), the failing file and every later file
contribute nothing. -/
def uploadDocs (provider ts : String) : List UploadedFile → List Document × List LogEvent
  | [] => ([], [])
  | f :: rest =>
    match f.text with
    | none => ([], [.errorProcessingPDFs])
    | some t =>
      let docs := enumMap (mkUploadDoc provider ts f.name) 0 (get_text_chunks t)
      let rest' := uploadDocs provider ts rest
      (docs ++ rest'.1, .addingPDF f.name docs.length :: rest'.2)

/-! ## `get_or_create_vectorstore` (src/utils/vectorstore_handler.py lines 114-236) -/

/-- Per-call environment: which of the operations the source wraps in
`try`/`except` raise, the state of the corpus JSON file, whether
`GOOGLE_API_KEY` is set, and the timestamp string `str(datetime.now())`. -/
structure Env where
  google_api_key : Bool := true
  loadStoreFails : Bool := false
  getFails : Bool := false
  fileRead : ReadResult := .missing
  createFails : Bool := false
  fallbackFails : Bool := false
  addFails : Bool := false
  ts : String := "2025-01-01 00:00:00"
deriving Repr, DecidableEq

/-- Result of a successful `get_or_create_vectorstore` call: the entries of
the returned Chroma handle, the new persisted state at the provider's path,
the updated corpus cache, and the console log. -/
structure CallResult where
  returned : List Document
  persisted : Option (List Document)
  cache : Option (List Document)
  log : List LogEvent
deriving Repr, DecidableEq

/-- Embedding of `get_or_create_vectorstore`
(src/utils/vectorstore_handler.py lines 114-236).

* `persisted` is the store at `persist_path model_provider`
  (`none` = `os.path.exists(...) and os.listdir(...)` is false);
* loading the existing store (`Chroma(...)`) may raise (`loadStoreFails`),
  leaving `vectorstore = None`, `plato_exists = False`;
* the presence check `vectorstore.get(limit=10000)` scans the first 10000
  entries (insertion order) and may itself raise (`getFails`), in which
  case `existing_sources` stays empty;
* corpus staging goes through the process cache (`get_plato_documents`);
* uploads go through `uploadDocs`;
* with nothing staged the existing handle is returned unchanged, or an
  empty store structure is created (modelled as always succeeding);
* `Chroma.from_documents` into the persistence path may raise
  (`createFails`), triggering the one in-memory fallback (collection
  `..._fallback`, nothing persisted), which may itself raise
  (`fallbackFails`) and then propagates;
* `add_documents` on an existing store may raise (`addFails`); the error is
  only printed and the existing store is returned without the staged
  documents. -/
def get_or_create_vectorstore (env : Env) (persisted : Option (List Document))
    (cache : Option (List Document)) (uploaded_files : List UploadedFile)
    (model_provider : String) : Except String CallResult :=
  match get_embeddings model_provider env.google_api_key with
  | .error e => .error e
  | .ok _ =>
    let loaded : Option (List Document) × Bool × List LogEvent :=
      match persisted with
      | some entries =>
        if env.loadStoreFails then
          (none, false, [.loadingExisting, .errorLoadingStore])
        else
          let scanned := if env.getFails then [] else (entries.take 10000).map (fun d => d.source)
          (some entries, scanned.contains "platon_analisis_nlp.json", [.loadingExisting])
      | none => (none, false, [.creatingNew])
    let vectorstore := loaded.1
    let plato_exists := loaded.2.1
    let log1 := loaded.2.2
    let staged1 : List Document × Option (List Document) × List LogEvent :=
      if plato_exists then ([], cache, [.platoAlreadyLoaded])
      else
        let pc := get_plato_documents cache env.fileRead
        (pc.1, pc.2, if pc.1.isEmpty then [] else [.addingPlato pc.1.length])
    let plato_docs := staged1.1
    let cache' := staged1.2.1
    let log2 := staged1.2.2
    let up := uploadDocs model_provider env.ts uploaded_files
    let documents_to_add := plato_docs ++ up.1
    let log := log1 ++ log2 ++ up.2
    if documents_to_add.isEmpty then
      match vectorstore with
      | some entries =>
        .ok { returned := entries, persisted := persisted, cache := cache',
              log := log ++ [.noNewDocuments] }
      | none =>
        .ok { returned := persisted.getD [], persisted := some (persisted.getD []),
              cache := cache', log := log ++ [.creatingEmptyStructure] }
    else
      match vectorstore with
      | none =>
        if env.createFails then
          if env.fallbackFails then .error "fallback creation failed"
          else
            .ok { returned := documents_to_add, persisted := persisted, cache := cache',
                  log := log ++ [.errorCreating, .usingInMemory] }
        else
          .ok { returned := persisted.getD [] ++ documents_to_add,
                persisted := some (persisted.getD [] ++ documents_to_add),
                cache := cache', log := log ++ [.createdNew documents_to_add.length] }
      | some entries =>
        if env.addFails then
          .ok { returned := entries, persisted := some entries, cache := cache',
                log := log ++ [.errorAdding] }
        else
          .ok { returned := entries ++ documents_to_add,
                persisted := some (entries ++ documents_to_add), cache := cache',
                log := log ++ [.addedToExisting documents_to_add.length] }

/-- Entries of the index a successful call hands back (`[]` for a raised
call; only used after establishing the call succeeded). -/
def returnedOf : Except String CallResult → List Document
  | .ok r => r.returned
  | .error _ => []

/-- Number of corpus-derived entries in an index: entries whose `source`
metadata is the corpus sentinel. -/
def corpusCount (l : List Document) : Nat :=
  l.countP fun d => d.source == "platon_analisis_nlp.json"

/-! ## Character-level lemmas for `normalize_collection_name` -/

lemma uint32_le_iff (a b : UInt32) : (a ≤ b) ↔ a.toNat ≤ b.toNat := by
  rw [UInt32.le_def, BitVec.le_def]
  rfl

lemma char_isUpper_iff (c : Char) : c.isUpper = true ↔ (65 ≤ c.toNat ∧ c.toNat ≤ 90) := by
  have h65 : (65 : UInt32).toNat = 65 := by decide
  have h90 : (90 : UInt32).toNat = 90 := by decide
  simp only [Char.isUpper, Bool.and_eq_true, decide_eq_true_eq, ge_iff_le, uint32_le_iff, h65, h90,
    Char.toNat]

/-- Lowercasing preserves alphanumericity (ASCII). -/
lemma toLower_isAlphanum (c : Char) (h : c.isAlphanum = true) : (c.toLower).isAlphanum = true := by
  by_cases hc : c.toNat ≥ 65 ∧ c.toNat ≤ 90
  · simp only [Char.toLower]
    rw [if_pos hc]
    obtain ⟨h1, h2⟩ := hc
    have h3 : 97 ≤ c.toNat + 32 := by omega
    have h4 : c.toNat + 32 ≤ 122 := by omega
    revert h3 h4
    generalize c.toNat + 32 = m
    intro h3 h4
    interval_cases m <;> decide
  · simp only [Char.toLower]
    rw [if_neg hc]
    exact h

/-- The result of lowercasing is never an (ASCII) uppercase letter. -/
lemma toLower_isUpper_false (c : Char) : (c.toLower).isUpper = false := by
  by_cases hc : c.toNat ≥ 65 ∧ c.toNat ≤ 90
  · simp only [Char.toLower]
    rw [if_pos hc]
    obtain ⟨h1, h2⟩ := hc
    have h3 : 97 ≤ c.toNat + 32 := by omega
    have h4 : c.toNat + 32 ≤ 122 := by omega
    revert h3 h4
    generalize c.toNat + 32 = m
    intro h3 h4
    interval_cases m <;> decide
  · simp only [Char.toLower]
    rw [if_neg hc]
    cases hu : c.isUpper
    · rfl
    · exact absurd (char_isUpper_iff c |>.mp hu) hc

/-- An alphanumeric character is neither a space, a hyphen, nor one of the
stripped punctuation characters. -/
lemma alnum_not_special (c : Char) (h : c.isAlphanum = true) :
    c ≠ ' ' ∧ c ≠ '-' ∧ stripChar c = false := by
  refine ⟨?_, ?_, ?_⟩
  · rintro rfl
    simp at h
  · rintro rfl
    simp at h
  · cases hd : stripChar c
    · rfl
    · exfalso
      simp only [stripChar, Bool.or_eq_true, decide_eq_true_eq] at hd
      rcases hd with (rfl | rfl) | rfl <;> simp at h

lemma replaceChar_mem (a b : Char) (s : List Char) (c : Char) (hc : c ∈ replaceChar a b s) :
    c = b ∨ (c ∈ s ∧ c ≠ a) := by
  simp only [replaceChar, List.mem_map] at hc
  obtain ⟨x, hx, hfx⟩ := hc
  by_cases hxa : x = a
  · left
    rw [hxa, if_pos rfl] at hfx
    exact hfx.symm
  · right
    rw [if_neg hxa] at hfx
    exact hfx ▸ ⟨hx, hxa⟩

lemma mem_replaceChar_of_ne (a b : Char) (s : List Char) (c : Char) (hc : c ∈ s) (hca : c ≠ a) :
    c ∈ replaceChar a b s := by
  simp only [replaceChar, List.mem_map]
  exact ⟨c, hc, if_neg hca⟩

/-! ## `dropWhile` / `stripEnds` lemmas -/

lemma mem_dropWhile_of_not (p : α → Bool) (l : List α) (x : α) (hx : x ∈ l)
    (hpx : p x = false) : x ∈ l.dropWhile p := by
  induction l with
  | nil => exact absurd hx (List.not_mem_nil x)
  | cons a as ih =>
    cases hpa : p a
    · simpa [List.dropWhile, hpa] using hx
    · rcases List.mem_cons.mp hx with rfl | hxs
      · rw [hpa] at hpx
        exact absurd hpx (by simp)
      · simpa [List.dropWhile, hpa] using ih hxs

lemma head?_dropWhile_false (p : α → Bool) (l : List α) (c : α)
    (hc : (l.dropWhile p).head? = some c) : p c = false := by
  induction l with
  | nil => simp [List.dropWhile] at hc
  | cons a as ih =>
    cases hpa : p a
    · simp only [List.dropWhile, hpa, List.head?_cons, Option.some.injEq] at hc
      exact hc ▸ hpa
    · simp only [List.dropWhile, hpa] at hc
      exact ih hc

lemma mem_of_getLast?_eq (l : List α) (c : α) (h : l.getLast? = some c) : c ∈ l := by
  induction l with
  | nil => simp at h
  | cons a as ih =>
    cases as with
    | nil =>
      simp only [List.getLast?_singleton, Option.some.injEq] at h
      simp [h]
    | cons b bs =>
      rw [List.getLast?_cons_cons] at h
      exact List.mem_cons_of_mem _ (ih h)

lemma getLast?_append_of_ne_nil (l1 l2 : List α) (h : l2 ≠ []) :
    (l1 ++ l2).getLast? = l2.getLast? := by
  cases hc : l2.getLast?
  · exact absurd (List.getLast?_eq_none_iff.mp hc) h
  · rw [List.getLast?_append, hc]
    rfl

lemma stripEnds_subset (p : Char → Bool) (l : List Char) (c : Char)
    (hc : c ∈ stripEnds p l) : c ∈ l := by
  simp only [stripEnds, List.mem_reverse] at hc
  have h1 := (List.dropWhile_suffix (l := (l.dropWhile p).reverse) p).subset hc
  rw [List.mem_reverse] at h1
  exact (List.dropWhile_suffix p).subset h1

lemma stripEnds_ne_nil (p : Char → Bool) (l : List Char) (x : Char) (hx : x ∈ l)
    (hpx : p x = false) : stripEnds p l ≠ [] := by
  have h1 : x ∈ l.dropWhile p := mem_dropWhile_of_not p l x hx hpx
  have h2 : x ∈ (l.dropWhile p).reverse.dropWhile p :=
    mem_dropWhile_of_not p _ x (List.mem_reverse.mpr h1) hpx
  simp only [stripEnds, ne_eq, List.reverse_eq_nil_iff]
  exact List.ne_nil_of_mem h2

lemma stripEnds_getLast (p : Char → Bool) (l : List Char) (c : Char)
    (hc : (stripEnds p l).getLast? = some c) : p c = false := by
  rw [stripEnds, List.getLast?_reverse] at hc
  exact head?_dropWhile_false p _ c hc

lemma stripEnds_head (p : Char → Bool) (l : List Char) (c : Char)
    (hc : (stripEnds p l).head? = some c) : p c = false := by
  rw [stripEnds, List.head?_reverse] at hc
  have hne : (l.dropWhile p).reverse.dropWhile p ≠ [] := by
    intro he
    rw [he] at hc
    simp at hc
  obtain ⟨t, ht⟩ := List.dropWhile_suffix (l := (l.dropWhile p).reverse) p
  have h2 : ((l.dropWhile p).reverse).getLast? = some c := by
    rw [← ht, getLast?_append_of_ne_nil _ _ hne]
    exact hc
  rw [List.getLast?_reverse] at h2
  exact head?_dropWhile_false p l c h2

/-! ## Claim C6: collection-id normalization -/

/-- C6 counterexample: for the provider name `"-"` (and likewise any name
without an alphanumeric character) the output of
`normalize_collection_name` is the bare namespace `"platonic_"`, which ends
in `'_'` — not an alphanumeric character.  So the claim's "for every
provider name … ends with an alphanumeric character" is false as stated. -/
theorem normalize_collection_name_trailing_underscore :
    normalize_collection_name "-" = "platonic_" ∧
    (normalize_collection_name "-").data.getLast? = some '_' ∧
    ('_'.isAlphanum = false) := by
  refine ⟨by decide, by decide, by decide⟩

/-- C6 (amended): for every provider name containing at least one
alphanumeric character, `normalize_collection_name` is deterministic and its
output is lowercase (no uppercase character), has spaces and hyphens
replaced (neither occurs in the output), contains only alphanumeric
characters plus `.`, `_`, `-`, starts and ends with an alphanumeric
character, and is prefixed with the fixed namespace `platonic_`.  (For names
with no alphanumeric character everything except the trailing-alphanumeric
conjunct still holds, the output being the bare namespace.) -/
theorem normalize_collection_name_spec (provider : String)
    (h : ∃ c ∈ provider.data, c.isAlphanum = true) :
    (∀ q : String, q = provider →
        normalize_collection_name q = normalize_collection_name provider) ∧
    (∀ c ∈ (normalize_collection_name provider).data,
        c.isAlphanum = true ∨ c = '.' ∨ c = '_' ∨ c = '-') ∧
    (∀ c ∈ (normalize_collection_name provider).data, c.isUpper = false) ∧
    ' ' ∉ (normalize_collection_name provider).data ∧
    '-' ∉ (normalize_collection_name provider).data ∧
    ((normalize_collection_name provider).data.head? = some 'p' ∧ 'p'.isAlphanum = true) ∧
    (∃ c, (normalize_collection_name provider).data.getLast? = some c ∧ c.isAlphanum = true) ∧
    (∃ core, normalize_collection_name provider = "platonic_" ++ core) := by
  obtain ⟨c0, hc0, hc0a⟩ := h
  set l := provider.data.map Char.toLower with hl
  set r := replaceChar '-' '_' (replaceChar ' ' '_' l) with hr
  set fil := r.filter chromaSafe with hfil
  set core := stripEnds stripChar fil with hcore
  have hout : normalize_collection_name provider = "platonic_" ++ String.mk core := rfl
  have hdata : (normalize_collection_name provider).data = "platonic_".data ++ core := by
    rw [hout, String.data_append]
  -- every character of `r` is non-upper, not a space, not a hyphen
  have hrmem : ∀ c ∈ r, c.isUpper = false ∧ c ≠ ' ' ∧ c ≠ '-' := by
    intro c hc
    rcases replaceChar_mem _ _ _ _ hc with rfl | ⟨hc1, hcne⟩
    · exact ⟨by decide, by decide, by decide⟩
    · rcases replaceChar_mem _ _ _ _ hc1 with rfl | ⟨hc2, hcne2⟩
      · exact ⟨by decide, by decide, hcne⟩
      · simp only [hl, List.mem_map] at hc2
        obtain ⟨d, _, hd⟩ := hc2
        exact ⟨hd ▸ toLower_isUpper_false d, hcne2, hcne⟩
  -- the lowercased image of the witness alphanumeric character survives to `fil`
  have hx0 : c0.toLower ∈ l := List.mem_map.mpr ⟨c0, hc0, rfl⟩
  have hx0a : (c0.toLower).isAlphanum = true := toLower_isAlphanum c0 hc0a
  obtain ⟨hxs, hxh, hxstrip⟩ := alnum_not_special _ hx0a
  have hx1 : c0.toLower ∈ r := by
    exact mem_replaceChar_of_ne _ _ _ _ (mem_replaceChar_of_ne _ _ _ _ hx0 hxs) hxh
  have hx2 : c0.toLower ∈ fil := by
    rw [hfil, List.mem_filter]
    exact ⟨hx1, by simp [chromaSafe, hx0a]⟩
  have hcne : core ≠ [] := stripEnds_ne_nil stripChar fil _ hx2 hxstrip
  -- member characterization of core
  have hcoremem : ∀ c ∈ core, (c.isAlphanum = true ∨ c = '.' ∨ c = '_' ∨ c = '-') ∧
      c.isUpper = false ∧ c ≠ ' ' ∧ c ≠ '-' := by
    intro c hc
    have hcfil : c ∈ fil := stripEnds_subset _ _ _ hc
    have hcr : c ∈ r := (List.mem_filter.mp hcfil).1
    have hsafe : chromaSafe c = true := (List.mem_filter.mp hcfil).2
    refine ⟨?_, hrmem c hcr⟩
    simp only [chromaSafe, Bool.or_eq_true, decide_eq_true_eq] at hsafe
    tauto
  have hpd : "platonic_".data = ['p', 'l', 'a', 't', 'o', 'n', 'i', 'c', '_'] := by decide
  have hpre1 : ∀ c ∈ "platonic_".data, c.isAlphanum = true ∨ c = '.' ∨ c = '_' ∨ c = '-' := by
    decide
  have hpre2 : ∀ c ∈ "platonic_".data, c.isUpper = false := by decide
  have hpre3 : ' ' ∉ "platonic_".data := by decide
  have hpre4 : '-' ∉ "platonic_".data := by decide
  refine ⟨fun q hq => by rw [hq], ?_, ?_, ?_, ?_, ⟨?_, by decide⟩, ?_, ⟨String.mk core, rfl⟩⟩
  · intro c hc
    rw [hdata] at hc
    rcases List.mem_append.mp hc with hp | hcc
    · exact hpre1 c hp
    · exact (hcoremem c hcc).1
  · intro c hc
    rw [hdata] at hc
    rcases List.mem_append.mp hc with hp | hcc
    · exact hpre2 c hp
    · exact (hcoremem c hcc).2.1
  · rw [hdata]
    intro hc
    rcases List.mem_append.mp hc with hp | hcc
    · exact hpre3 hp
    · exact (hcoremem _ hcc).2.2.1 rfl
  · rw [hdata]
    intro hc
    rcases List.mem_append.mp hc with hp | hcc
    · exact hpre4 hp
    · exact (hcoremem _ hcc).2.2.2 rfl
  · rw [hdata, hpd]
    rfl
  · obtain ⟨c, hc⟩ : ∃ c, core.getLast? = some c := by
      cases hgc : core.getLast?
      · exact absurd (List.getLast?_eq_none_iff.mp hgc) hcne
      · exact ⟨_, rfl⟩
    refine ⟨c, ?_, ?_⟩
    · rw [hdata, getLast?_append_of_ne_nil _ _ hcne, hc]
    · have hmem := mem_of_getLast?_eq core c hc
      have hstrip : stripChar c = false := stripEnds_getLast _ _ _ hc
      rcases (hcoremem c hmem).1 with ha | rfl | rfl | rfl
      · exact ha
      all_goals simp [stripChar] at hstrip

/-- Witness for `normalize_collection_name_spec` at the concrete provider
name `"Spanish LLM"`. -/
theorem normalize_collection_name_spec_witness :
    (∃ c ∈ ("Spanish LLM" : String).data, c.isAlphanum = true) ∧
    (normalize_collection_name "Spanish LLM").data.head? = some 'p' ∧
    (∃ c, (normalize_collection_name "Spanish LLM").data.getLast? = some c ∧
      c.isAlphanum = true) ∧
    (∃ core, normalize_collection_name "Spanish LLM" = "platonic_" ++ core) := by
  have hh : ∃ c ∈ ("Spanish LLM" : String).data, c.isAlphanum = true := ⟨'S', by decide, by decide⟩
  have h := normalize_collection_name_spec "Spanish LLM" hh
  exact ⟨hh, h.2.2.2.2.2.1.1, h.2.2.2.2.2.2.1, h.2.2.2.2.2.2.2⟩

/-! ## Claim C5: corpus loader error conditions -/

lemma enumMap_length (f : Nat → α → β) : ∀ (i : Nat) (l : List α),
    (enumMap f i l).length = l.length
  | _, [] => rfl
  | i, _ :: as => by simp [enumMap, enumMap_length f (i + 1) as]

/-- C5: `load_platon_json` fails when the corpus file is missing, when its
content is malformed, and when the parsed file yields zero entries (an
empty entry list is an error, never a silent success); for a non-empty
well-formed file it returns exactly one `Document` per entry, built by
`mkPlatonDoc`. -/
theorem load_platon_json_contract (filepath : String) :
    (load_platon_json filepath .missing).isOk = false ∧
    (load_platon_json filepath .malformed).isOk = false ∧
    (load_platon_json filepath (.parsed [])).isOk = false ∧
    (∀ data : List PlatonItem, data ≠ [] →
      load_platon_json filepath (.parsed data) = .ok (enumMap mkPlatonDoc 0 data) ∧
      (enumMap mkPlatonDoc 0 data).length = data.length) := by
  refine ⟨rfl, rfl, rfl, ?_⟩
  intro data hd
  cases data with
  | nil => exact absurd rfl hd
  | cons a as => exact ⟨rfl, enumMap_length _ _ _⟩

/-- Witness for `load_platon_json_contract` at a concrete one-entry file. -/
theorem load_platon_json_contract_witness :
    ([({ texto := some "Idea del Bien" } : PlatonItem)] ≠ []) ∧
    load_platon_json PLATON_JSON_PATH (.parsed [{ texto := some "Idea del Bien" }]) =
      .ok (enumMap mkPlatonDoc 0 [{ texto := some "Idea del Bien" }]) ∧
    (load_platon_json PLATON_JSON_PATH .missing).isOk = false := by
  have hne : [({ texto := some "Idea del Bien" } : PlatonItem)] ≠ [] := by simp
  have h := load_platon_json_contract PLATON_JSON_PATH
  exact ⟨hne, (h.2.2.2 _ hne).1, h.1⟩

/-! ## Claim C10: sticky corpus cache -/

lemma runPlatoCalls_some (file : ReadResult) (d : List Document) : ∀ n,
    runPlatoCalls file n (some d) = (List.replicate n d, some d, 0)
  | 0 => rfl
  | n + 1 => by
    simp [runPlatoCalls, get_plato_documents, runPlatoCalls_some file d n, List.replicate_succ]

/-- C10: over any number of successive `get_plato_documents` calls in one
process (starting from the unpopulated cache), the corpus loader is invoked
exactly once and no call raises (the function is total); every call returns
the result of the first call, and if the first load fails every call
returns the empty list — the empty cache is sticky, with no retry. -/
theorem get_plato_documents_cache_sticky (file : ReadResult) (n : Nat) :
    (runPlatoCalls file (n + 1) none).2.2 = 1 ∧
    (runPlatoCalls file (n + 1) none).1.length = n + 1 ∧
    (∀ docs ∈ (runPlatoCalls file (n + 1) none).1,
      docs = (get_plato_documents none file).1) ∧
    ((load_platon_json PLATON_JSON_PATH file).isOk = false →
      ∀ docs ∈ (runPlatoCalls file (n + 1) none).1, docs = []) := by
  cases hld : load_platon_json PLATON_JSON_PATH file with
  | ok docs =>
    have h1 : get_plato_documents none file = (docs, some docs) := by
      simp [get_plato_documents, hld]
    have h2 : runPlatoCalls file (n + 1) none = (docs :: List.replicate n docs, some docs, 1) := by
      simp [runPlatoCalls, h1, runPlatoCalls_some]
    refine ⟨by rw [h2], by rw [h2]; simp, ?_, ?_⟩
    · intro d hd
      rw [h2] at hd
      rw [h1]
      rcases List.mem_cons.mp hd with rfl | hd
      · rfl
      · exact List.eq_of_mem_replicate hd
    · intro hfail
      simp [Except.isOk, Except.toBool] at hfail
  | error e =>
    have h1 : get_plato_documents none file = ([], some []) := by
      simp [get_plato_documents, hld]
    have h2 : runPlatoCalls file (n + 1) none = ([] :: List.replicate n [], some [], 1) := by
      simp [runPlatoCalls, h1, runPlatoCalls_some]
    refine ⟨by rw [h2], by rw [h2]; simp, ?_, ?_⟩
    · intro d hd
      rw [h2] at hd
      rw [h1]
      rcases List.mem_cons.mp hd with rfl | hd
      · rfl
      · exact List.eq_of_mem_replicate hd
    · intro _ d hd
      rw [h2] at hd
      rcases List.mem_cons.mp hd with rfl | hd
      · rfl
      · exact List.eq_of_mem_replicate hd

/-- Witness for `get_plato_documents_cache_sticky`: three calls against a
missing corpus file — the loader runs once, all three calls return `[]`. -/
theorem get_plato_documents_cache_sticky_witness :
    (runPlatoCalls .missing 3 none).2.2 = 1 ∧
    (load_platon_json PLATON_JSON_PATH .missing).isOk = false ∧
    (∀ docs ∈ (runPlatoCalls .missing 3 none).1, docs = []) := by
  have h := get_plato_documents_cache_sticky .missing 2
  exact ⟨h.1, rfl, h.2.2.2 rfl⟩

/-! ## Claim C9: chunker edge cases and determinism -/

lemma string_data_eq_nil_iff (t : String) : t.data = [] ↔ t = "" := by
  constructor
  · intro h
    cases t
    simp only [String.data] at h
    rw [h]
  · rintro rfl
    rfl

/-- C9: `get_text_chunks` returns the empty sequence on empty input, a
single chunk equal to the whole text for non-empty text of length at most
the chunk size (5000), and identical output on identical input.  (At the
empty string the first rule takes precedence: the source's splitter returns
`[]`, not `[""]`.) -/
theorem get_text_chunks_contract :
    get_text_chunks "" = [] ∧
    (∀ t : String, t ≠ "" → t.length ≤ 5000 → get_text_chunks t = [t]) ∧
    (∀ t₁ t₂ : String, t₁ = t₂ → get_text_chunks t₁ = get_text_chunks t₂) := by
  refine ⟨rfl, ?_, fun t₁ t₂ h => by rw [h]⟩
  intro t hne hlen
  have hd : t.data ≠ [] := fun h => hne ((string_data_eq_nil_iff t).mp h)
  have hie : t.data.isEmpty = false := by
    cases hdd : t.data
    · exact absurd hdd hd
    · rfl
  have hsplit : splitChunks t.data = [t.data] :=
    splitChunksFuel_short t.data.length t.data hlen
  rw [get_text_chunks, hie]
  simp only [Bool.false_eq_true, if_false, hsplit, List.map_cons, List.map_nil]

/-- Witness for `get_text_chunks_contract` at the concrete text `"abc"`. -/
theorem get_text_chunks_contract_witness :
    (("abc" : String) ≠ "") ∧ ("abc" : String).length ≤ 5000 ∧
    get_text_chunks "abc" = ["abc"] := by
  refine ⟨by decide, by decide, ?_⟩
  exact get_text_chunks_contract.2.1 "abc" (by decide) (by decide)

/-! ## Claims C1 and C7: idempotent corpus inclusion, no-op merge -/

/-- When the store loads, the bounded scan finds the corpus sentinel and the
uploads stage no documents, the call returns the existing store unchanged:
nothing is created, added or persisted anew. -/
lemma call_noop (env : Env) (store : List Document) (cache : Option (List Document))
    (files : List UploadedFile) (provider : String)
    (hemb : get_embeddings provider env.google_api_key = .ok ())
    (hl : env.loadStoreFails = false) (hg : env.getFails = false)
    (hsent : "platon_analisis_nlp.json" ∈ (store.take 10000).map (fun d => d.source))
    (hup : (uploadDocs provider env.ts files).1 = []) :
    get_or_create_vectorstore env (some store) cache files provider =
      .ok { returned := store, persisted := some store, cache := cache,
            log := [.loadingExisting, .platoAlreadyLoaded] ++
              (uploadDocs provider env.ts files).2 ++ [.noNewDocuments] } := by
  have hcont : ((store.take 10000).map (fun d => d.source)).contains "platon_analisis_nlp.json"
      = true := List.elem_iff.mpr hsent
  simp only [get_or_create_vectorstore, hemb, hl, hg, hcont, Bool.false_eq_true, if_false,
    if_true, hup, List.nil_append, List.append_nil, List.isEmpty_nil, List.append_assoc]
  rfl

/-- A corpus document used by concrete witnesses. -/
def sampleCorpusDoc : Document := mkPlatonDoc 0 { texto := some "La Republica" }

/-- The default environment: every operation succeeds, the corpus file is
missing (irrelevant when the corpus is already indexed). -/
def sampleEnv : Env := {}

/-- C1: for every provider whose embedding resolution succeeds, calling
`get_or_create_vectorstore` with an empty upload list twice in succession
against the same persisted store leaves the store unchanged, so the
corpus-derived entry count is identical both times: when an entry with
`source` equal to the corpus sentinel is found within the bounded scan of
the first 10000 entries, the corpus documents are not staged again. -/
theorem corpus_inclusion_idempotent (env1 env2 : Env) (store : List Document)
    (cache : Option (List Document)) (provider : String)
    (hemb1 : get_embeddings provider env1.google_api_key = .ok ())
    (hemb2 : get_embeddings provider env2.google_api_key = .ok ())
    (hl1 : env1.loadStoreFails = false) (hg1 : env1.getFails = false)
    (hl2 : env2.loadStoreFails = false) (hg2 : env2.getFails = false)
    (hsent : "platon_analisis_nlp.json" ∈ (store.take 10000).map (fun d => d.source)) :
    ∃ r1 r2,
      get_or_create_vectorstore env1 (some store) cache [] provider = .ok r1 ∧
      get_or_create_vectorstore env2 r1.persisted r1.cache [] provider = .ok r2 ∧
      r1.returned = store ∧ r1.persisted = some store ∧
      r2.returned = store ∧ r2.persisted = some store ∧
      corpusCount r2.returned = corpusCount r1.returned := by
  refine ⟨_, _, call_noop env1 store cache [] provider hemb1 hl1 hg1 hsent rfl,
    call_noop env2 store cache [] provider hemb2 hl2 hg2 hsent rfl,
    rfl, rfl, rfl, rfl, rfl⟩

/-- Witness for `corpus_inclusion_idempotent`: a one-entry persisted store
already holding the corpus document, provider `"Spanish LLM"`. -/
theorem corpus_inclusion_idempotent_witness :
    ("platon_analisis_nlp.json" ∈ (([sampleCorpusDoc].take 10000).map (fun d => d.source))) ∧
    (∃ r1 r2,
      get_or_create_vectorstore sampleEnv (some [sampleCorpusDoc]) none [] "Spanish LLM" =
        .ok r1 ∧
      get_or_create_vectorstore sampleEnv r1.persisted r1.cache [] "Spanish LLM" = .ok r2 ∧
      r1.returned = [sampleCorpusDoc] ∧ r1.persisted = some [sampleCorpusDoc] ∧
      r2.returned = [sampleCorpusDoc] ∧ r2.persisted = some [sampleCorpusDoc] ∧
      corpusCount r2.returned = corpusCount r1.returned) := by
  have hsent : "platon_analisis_nlp.json" ∈
      (([sampleCorpusDoc].take 10000).map (fun d => d.source)) := by decide
  exact ⟨hsent, corpus_inclusion_idempotent sampleEnv sampleEnv [sampleCorpusDoc] none
    "Spanish LLM" rfl rfl rfl rfl rfl rfl hsent⟩

/-- Every event the upload loop logs is an `addingPDF` or the single
`errorProcessingPDFs` message — the loop never creates or persists. -/
lemma uploadDocs_log_shape (provider ts : String) : ∀ (files : List UploadedFile),
    ∀ e ∈ (uploadDocs provider ts files).2,
      (∃ name n, e = .addingPDF name n) ∨ e = .errorProcessingPDFs
  | [] => by simp [uploadDocs]
  | f :: rest => by
    intro e he
    cases hft : f.text with
    | none =>
      simp only [uploadDocs, hft] at he
      rcases List.mem_cons.mp he with rfl | he
      · exact Or.inr rfl
      · simp at he
    | some t =>
      simp only [uploadDocs, hft] at he
      rcases List.mem_cons.mp he with rfl | he
      · exact Or.inl ⟨_, _, rfl⟩
      · exact uploadDocs_log_shape provider ts rest e he

/-- C7: whenever the staged document set ends up empty (the corpus sentinel
is found in the bounded scan, so the corpus is not staged, and the uploaded
files stage no documents), the call returns the existing index unchanged:
the returned entries and the persisted store equal the previous store, and
no create/add/fallback operation appears in the log. -/
theorem merge_noop_when_nothing_staged (env : Env) (store : List Document)
    (cache : Option (List Document)) (files : List UploadedFile) (provider : String)
    (hemb : get_embeddings provider env.google_api_key = .ok ())
    (hl : env.loadStoreFails = false) (hg : env.getFails = false)
    (hsent : "platon_analisis_nlp.json" ∈ (store.take 10000).map (fun d => d.source))
    (hup : (uploadDocs provider env.ts files).1 = []) :
    ∃ r, get_or_create_vectorstore env (some store) cache files provider = .ok r ∧
      r.returned = store ∧ r.persisted = some store ∧
      (∀ e ∈ r.log, (∀ n, e ≠ .createdNew n) ∧ (∀ n, e ≠ .addedToExisting n) ∧
        e ≠ .usingInMemory) := by
  refine ⟨_, call_noop env store cache files provider hemb hl hg hsent hup, rfl, rfl, ?_⟩
  intro e he
  simp only [List.mem_append, List.mem_cons, List.mem_singleton, List.not_mem_nil,
    or_false] at he
  rcases he with ((rfl | rfl) | he) | rfl
  · exact ⟨fun n => by simp, fun n => by simp, by simp⟩
  · exact ⟨fun n => by simp, fun n => by simp, by simp⟩
  · rcases uploadDocs_log_shape provider env.ts files e he with ⟨name, n, rfl⟩ | rfl
    · exact ⟨fun n => by simp, fun n => by simp, by simp⟩
    · exact ⟨fun n => by simp, fun n => by simp, by simp⟩
  · exact ⟨fun n => by simp, fun n => by simp, by simp⟩

/-- Witness for `merge_noop_when_nothing_staged`: corpus already present,
one uploaded file whose extracted text is empty (stages zero chunks). -/
theorem merge_noop_when_nothing_staged_witness :
    ("platon_analisis_nlp.json" ∈ (([sampleCorpusDoc].take 10000).map (fun d => d.source))) ∧
    ((uploadDocs "Spanish LLM" sampleEnv.ts [⟨"a.pdf", some ""⟩]).1 = []) ∧
    (∃ r, get_or_create_vectorstore sampleEnv (some [sampleCorpusDoc]) none
        [⟨"a.pdf", some ""⟩] "Spanish LLM" = .ok r ∧
      r.returned = [sampleCorpusDoc] ∧ r.persisted = some [sampleCorpusDoc] ∧
      (∀ e ∈ r.log, (∀ n, e ≠ .createdNew n) ∧ (∀ n, e ≠ .addedToExisting n) ∧
        e ≠ .usingInMemory)) := by
  have hsent : "platon_analisis_nlp.json" ∈
      (([sampleCorpusDoc].take 10000).map (fun d => d.source)) := by decide
  refine ⟨hsent, rfl, merge_noop_when_nothing_staged sampleEnv [sampleCorpusDoc] none
    [⟨"a.pdf", some ""⟩] "Spanish LLM" rfl rfl rfl hsent rfl⟩

/-! ## Claim C3: corpus-load failure handling -/

/-- C3 counterexample: with the corpus file missing (so `load_platon_json`
fails), a call that needs to include the corpus does NOT propagate the
error: it returns `ok` with an index containing zero corpus entries, and
caches the empty corpus.  The failure never surfaces to the caller. -/
theorem corpus_load_failure_swallowed :
    (load_platon_json PLATON_JSON_PATH .missing).isOk = false ∧
    get_or_create_vectorstore sampleEnv none none [] "Spanish LLM" =
      .ok { returned := [], persisted := some [], cache := some [],
            log := [.creatingNew, .creatingEmptyStructure] } ∧
    corpusCount ([] : List Document) = 0 :=
  ⟨rfl, rfl, rfl⟩

/-- C3 (amended): a corpus-load failure (missing, malformed, or zero
entries) is caught inside `get_plato_documents`, which caches and returns
the empty list; `get_or_create_vectorstore` then proceeds without raising
and returns an index with no corpus-derived entries — the error is only
logged, never propagated to the caller. -/
theorem corpus_load_failure_caught (env : Env) (provider : String)
    (hemb : get_embeddings provider env.google_api_key = .ok ())
    (hfail : (load_platon_json PLATON_JSON_PATH env.fileRead).isOk = false) :
    ∃ r, get_or_create_vectorstore env none none [] provider = .ok r ∧
      corpusCount r.returned = 0 ∧ r.cache = some [] ∧ r.persisted = some [] := by
  cases hld : load_platon_json PLATON_JSON_PATH env.fileRead with
  | ok docs =>
    rw [hld] at hfail
    simp [Except.isOk, Except.toBool] at hfail
  | error e =>
    have h1 : get_plato_documents none env.fileRead = ([], some []) := by
      simp [get_plato_documents, hld]
    refine ⟨{ returned := [], persisted := some [], cache := some [],
              log := [.creatingNew, .creatingEmptyStructure] }, ?_, rfl, rfl, rfl⟩
    simp only [get_or_create_vectorstore, hemb, h1]
    rfl

/-- Witness for `corpus_load_failure_caught` at the missing-file state. -/
theorem corpus_load_failure_caught_witness :
    (get_embeddings "Spanish LLM" sampleEnv.google_api_key = .ok ()) ∧
    ((load_platon_json PLATON_JSON_PATH sampleEnv.fileRead).isOk = false) ∧
    (∃ r, get_or_create_vectorstore sampleEnv none none [] "Spanish LLM" = .ok r ∧
      corpusCount r.returned = 0 ∧ r.cache = some [] ∧ r.persisted = some []) :=
  ⟨rfl, rfl, corpus_load_failure_caught sampleEnv "Spanish LLM" rfl rfl⟩

/-! ## Claim C4: persistence-failure fallback -/

/-- Environment in which `add_documents` on the existing store raises. -/
def sampleEnvAddFails : Env := { addFails := true }

/-- Environment in which `Chroma.from_documents` into the persistence path
raises. -/
def sampleEnvCreateFails : Env := { createFails := true }

/-- C4 counterexample: on the append path (store already exists) a failure
of the final add step triggers NO fallback: the staged upload document is
lost, the caller receives the old store without the staged documents, and
no in-memory-fallback event is logged.  This refutes "for every call with a
non-empty staged set, a failing final step yields a usable index containing
the staged documents". -/
theorem persistence_failure_no_fallback_on_append :
    (uploadDocs "Spanish LLM" sampleEnvAddFails.ts [⟨"a.pdf", some "x"⟩]).1 =
      [mkUploadDoc "Spanish LLM" sampleEnvAddFails.ts "a.pdf" 0 "x"] ∧
    get_or_create_vectorstore sampleEnvAddFails (some [sampleCorpusDoc]) none
        [⟨"a.pdf", some "x"⟩] "Spanish LLM" =
      .ok { returned := [sampleCorpusDoc], persisted := some [sampleCorpusDoc], cache := none,
            log := [.loadingExisting, .platoAlreadyLoaded, .addingPDF "a.pdf" 1,
              .errorAdding] } ∧
    mkUploadDoc "Spanish LLM" sampleEnvAddFails.ts "a.pdf" 0 "x" ∉ [sampleCorpusDoc] ∧
    LogEvent.usingInMemory ∉
      [LogEvent.loadingExisting, LogEvent.platoAlreadyLoaded, LogEvent.addingPDF "a.pdf" 1,
        LogEvent.errorAdding] :=
  ⟨rfl, rfl, by decide, by decide⟩

/-- C4 (amended): the in-memory fallback exists only on the creation path.
When no existing store was loaded, the staged set is non-empty and creating
the persisted store fails, one fallback attempt builds an in-memory index
from exactly the staged documents, nothing is persisted, and the degraded
mode is logged (a console message only — the returned handle itself carries
no degraded-mode marker for the caller).  When appending to an existing
store fails, the error is logged and the old store is returned without the
staged documents (see the counterexample). -/
theorem persistence_failure_fallback_on_create (env : Env) (cache : Option (List Document))
    (files : List UploadedFile) (provider : String)
    (hemb : get_embeddings provider env.google_api_key = .ok ())
    (hcreate : env.createFails = true) (hfb : env.fallbackFails = false)
    (hne : ((get_plato_documents cache env.fileRead).1 ++
      (uploadDocs provider env.ts files).1) ≠ []) :
    ∃ r, get_or_create_vectorstore env none cache files provider = .ok r ∧
      r.returned = (get_plato_documents cache env.fileRead).1 ++
        (uploadDocs provider env.ts files).1 ∧
      r.persisted = none ∧
      LogEvent.usingInMemory ∈ r.log := by
  have hie : ((get_plato_documents cache env.fileRead).1 ++
      (uploadDocs provider env.ts files).1).isEmpty = false := by
    cases hc : (get_plato_documents cache env.fileRead).1 ++
        (uploadDocs provider env.ts files).1 with
    | nil => exact absurd hc hne
    | cons a l => rfl
  refine ⟨{ returned := (get_plato_documents cache env.fileRead).1 ++
              (uploadDocs provider env.ts files).1,
            persisted := none,
            cache := (get_plato_documents cache env.fileRead).2,
            log := [.creatingNew] ++
              (if (get_plato_documents cache env.fileRead).1.isEmpty then []
               else [.addingPlato (get_plato_documents cache env.fileRead).1.length]) ++
              (uploadDocs provider env.ts files).2 ++ [.errorCreating, .usingInMemory] },
          ?_, rfl, rfl, by simp⟩
  simp only [get_or_create_vectorstore, hemb, hcreate, hfb, hie, Bool.false_eq_true, if_false,
    if_true, List.append_assoc]

/-- Witness for `persistence_failure_fallback_on_create`: empty store, one
staged upload document, creation fails — the caller still receives an index
holding exactly the staged document. -/
theorem persistence_failure_fallback_on_create_witness :
    (sampleEnvCreateFails.createFails = true) ∧
    (sampleEnvCreateFails.fallbackFails = false) ∧
    (((get_plato_documents none sampleEnvCreateFails.fileRead).1 ++
      (uploadDocs "Spanish LLM" sampleEnvCreateFails.ts [⟨"a.pdf", some "x"⟩]).1) ≠ []) ∧
    (∃ r, get_or_create_vectorstore sampleEnvCreateFails none none
        [⟨"a.pdf", some "x"⟩] "Spanish LLM" = .ok r ∧
      r.returned = (get_plato_documents none sampleEnvCreateFails.fileRead).1 ++
        (uploadDocs "Spanish LLM" sampleEnvCreateFails.ts [⟨"a.pdf", some "x"⟩]).1 ∧
      r.persisted = none ∧
      LogEvent.usingInMemory ∈ r.log) := by
  have hne : ((get_plato_documents none sampleEnvCreateFails.fileRead).1 ++
      (uploadDocs "Spanish LLM" sampleEnvCreateFails.ts [⟨"a.pdf", some "x"⟩]).1) ≠ [] := by
    decide
  exact ⟨rfl, rfl, hne,
    persistence_failure_fallback_on_create sampleEnvCreateFails none
      [⟨"a.pdf", some "x"⟩] "Spanish LLM" rfl rfl rfl hne⟩

/-! ## Claim C2: upload failure handling -/

/-- The single `try` around the upload `for` loop cuts processing at the
first failing file: the staged documents are exactly those of the files
strictly before it. -/
lemma uploadDocs_cut (provider ts : String) (pre : List UploadedFile) (bad : UploadedFile)
    (post : List UploadedFile) (hpre : ∀ f ∈ pre, f.text.isSome = true)
    (hbad : bad.text = none) :
    (uploadDocs provider ts (pre ++ bad :: post)).1 = (uploadDocs provider ts pre).1 := by
  induction pre with
  | nil => simp [uploadDocs, hbad]
  | cons f rest ih =>
    have hf : f.text.isSome = true := hpre f (List.mem_cons_self f rest)
    obtain ⟨t, ht⟩ := Option.isSome_iff_exists.mp hf
    have ih' := ih fun g hg => hpre g (List.mem_cons_of_mem _ hg)
    simp only [List.cons_append, uploadDocs, ht, List.append_eq, ih']

/-- C2 counterexample: three uploaded files where extraction fails for
exactly the second one.  The call does not raise, but the resulting index
contains only the first file's documents — the third (non-failing) file's
documents are missing, because the exception aborts the whole loop.  This
refutes "…contains the documents derived from every other (non-failing)
uploaded file, regardless of the failing file's position". -/
theorem upload_skip_not_continue :
    ((⟨"c.pdf", some "y"⟩ : UploadedFile).text.isSome = true) ∧
    get_or_create_vectorstore sampleEnv none none
        [⟨"a.pdf", some "x"⟩, ⟨"b.pdf", none⟩, ⟨"c.pdf", some "y"⟩] "Spanish LLM" =
      .ok { returned := [mkUploadDoc "Spanish LLM" sampleEnv.ts "a.pdf" 0 "x"],
            persisted := some [mkUploadDoc "Spanish LLM" sampleEnv.ts "a.pdf" 0 "x"],
            cache := some [],
            log := [.creatingNew, .addingPDF "a.pdf" 1, .errorProcessingPDFs,
              .createdNew 1] } ∧
    (∀ d ∈ [mkUploadDoc "Spanish LLM" sampleEnv.ts "a.pdf" 0 "x"],
      d.source ≠ "uploaded_pdf_c.pdf") :=
  ⟨rfl, rfl, by decide⟩

/-- C2 (amended): when text extraction fails for one uploaded file, the
call does not raise, and the resulting index contains exactly the corpus
documents plus the documents of the files strictly before the failing one;
the failing file and every file after it are skipped (the single exception
handler wraps the whole loop). -/
theorem upload_failure_truncates (env : Env) (cache : Option (List Document))
    (provider : String) (pre : List UploadedFile) (bad : UploadedFile)
    (post : List UploadedFile)
    (hemb : get_embeddings provider env.google_api_key = .ok ())
    (hpre : ∀ f ∈ pre, f.text.isSome = true) (hbad : bad.text = none)
    (hcreate : env.createFails = false) :
    ∃ r, get_or_create_vectorstore env none cache (pre ++ bad :: post) provider = .ok r ∧
      r.returned = (get_plato_documents cache env.fileRead).1 ++
        (uploadDocs provider env.ts pre).1 := by
  have hcut := uploadDocs_cut provider env.ts pre bad post hpre hbad
  by_cases hemp : (get_plato_documents cache env.fileRead).1 ++
      (uploadDocs provider env.ts pre).1 = []
  · obtain ⟨hpc, hup0⟩ := List.append_eq_nil.mp hemp
    have hupfull : (uploadDocs provider env.ts (pre ++ bad :: post)).1 = [] := by
      rw [hcut, hup0]
    refine ⟨{ returned := [], persisted := some [],
              cache := (get_plato_documents cache env.fileRead).2,
              log := [.creatingNew] ++ (uploadDocs provider env.ts (pre ++ bad :: post)).2 ++
                [.creatingEmptyStructure] }, ?_, by rw [hemp]⟩
    simp only [get_or_create_vectorstore, hemb, hpc, hupfull, Bool.false_eq_true, if_false,
      List.isEmpty_nil, if_true, List.nil_append, List.append_nil, List.append_assoc,
      Option.getD_none]
  · have hie2 : ((get_plato_documents cache env.fileRead).1 ++
        (uploadDocs provider env.ts pre).1).isEmpty = false := by
      cases hc : (get_plato_documents cache env.fileRead).1 ++
          (uploadDocs provider env.ts pre).1 with
      | nil => exact absurd hc hemp
      | cons a l => rfl
    refine ⟨{ returned := (get_plato_documents cache env.fileRead).1 ++
                (uploadDocs provider env.ts pre).1,
              persisted := some ((get_plato_documents cache env.fileRead).1 ++
                (uploadDocs provider env.ts pre).1),
              cache := (get_plato_documents cache env.fileRead).2,
              log := [.creatingNew] ++
                (if (get_plato_documents cache env.fileRead).1.isEmpty then []
                 else [.addingPlato (get_plato_documents cache env.fileRead).1.length]) ++
                (uploadDocs provider env.ts (pre ++ bad :: post)).2 ++
                [.createdNew ((get_plato_documents cache env.fileRead).1 ++
                  (uploadDocs provider env.ts pre).1).length] }, ?_, rfl⟩
    simp only [get_or_create_vectorstore, hemb, hcut, hie2, hcreate, Bool.false_eq_true,
      if_false, Option.getD_none, List.nil_append, List.append_assoc]

/-- Witness for `upload_failure_truncates`: first file succeeds, second
fails, third would succeed but is skipped. -/
theorem upload_failure_truncates_witness :
    (∀ f ∈ [(⟨"a.pdf", some "x"⟩ : UploadedFile)], f.text.isSome = true) ∧
    ((⟨"b.pdf", none⟩ : UploadedFile).text = none) ∧
    (∃ r, get_or_create_vectorstore sampleEnv none none
        ([⟨"a.pdf", some "x"⟩] ++ ⟨"b.pdf", none⟩ :: [⟨"c.pdf", some "y"⟩]) "Spanish LLM" =
        .ok r ∧
      r.returned = (get_plato_documents none sampleEnv.fileRead).1 ++
        (uploadDocs "Spanish LLM" sampleEnv.ts [⟨"a.pdf", some "x"⟩]).1) := by
  have hpre : ∀ f ∈ [(⟨"a.pdf", some "x"⟩ : UploadedFile)], f.text.isSome = true := by decide
  exact ⟨hpre, rfl,
    upload_failure_truncates sampleEnv none "Spanish LLM" [⟨"a.pdf", some "x"⟩]
      ⟨"b.pdf", none⟩ [⟨"c.pdf", some "y"⟩] rfl hpre rfl rfl⟩

/-! ## Claim C8: chunk_id uniqueness within a source -/

/-- `chunk_id` is unique within a single source: any two entries of the
index with the same `source` metadata carry different `chunk_id`s. -/
def uniqueChunkIds (l : List Document) : Prop :=
  List.Pairwise (fun a b => a.source = b.source → a.chunk_id ≠ b.chunk_id) l

/-- The document staged for the single chunk of the witness upload. -/
def dupUploadDoc : Document := mkUploadDoc "Spanish LLM" sampleEnv.ts "a.pdf" 0 "x"

/-- C8 counterexample: uploading the same one-chunk file twice (here in one
call; successive calls behave the same) yields a reachable index holding
two entries with the same `source` (`uploaded_pdf_a.pdf`) and the same
`chunk_id` (0): `chunk_id` is NOT unique within a source in every reachable
index. -/
theorem chunk_id_duplicated_on_reupload :
    get_or_create_vectorstore sampleEnv none none
        [⟨"a.pdf", some "x"⟩, ⟨"a.pdf", some "x"⟩] "Spanish LLM" =
      .ok { returned := [dupUploadDoc, dupUploadDoc],
            persisted := some [dupUploadDoc, dupUploadDoc], cache := some [],
            log := [.creatingNew, .addingPDF "a.pdf" 1, .addingPDF "a.pdf" 1,
              .createdNew 2] } ∧
    ¬ uniqueChunkIds [dupUploadDoc, dupUploadDoc] :=
  ⟨rfl, fun h => (List.pairwise_cons.mp h).1 _ (List.mem_singleton.mpr rfl) rfl rfl⟩

lemma mem_enumMap (f : Nat → α → β) : ∀ (i : Nat) (l : List α) (b : β),
    b ∈ enumMap f i l → ∃ j a, b = f j a
  | _, [], b => by simp [enumMap]
  | i, x :: xs, b => by
    intro hb
    rcases List.mem_cons.mp hb with rfl | hb
    · exact ⟨i, x, rfl⟩
    · exact mem_enumMap f (i + 1) xs b hb

lemma enumMap_chunk_id_lb (mk : Nat → α → Document)
    (hmk : ∀ j a, (mk j a).chunk_id = j) : ∀ (i : Nat) (l : List α),
    ∀ d ∈ enumMap mk i l, i ≤ d.chunk_id
  | _, [] => by simp [enumMap]
  | i, x :: xs => by
    intro d hd
    rcases List.mem_cons.mp hd with rfl | hd
    · rw [hmk]
    · exact Nat.le_of_succ_le (enumMap_chunk_id_lb mk hmk (i + 1) xs d hd)

/-- Within one `enumerate`-built batch the `chunk_id`s are pairwise
distinct. -/
lemma enumMap_pairwise_chunk_id (mk : Nat → α → Document)
    (hmk : ∀ j a, (mk j a).chunk_id = j) : ∀ (i : Nat) (l : List α),
    List.Pairwise (fun a b : Document => a.chunk_id ≠ b.chunk_id) (enumMap mk i l)
  | _, [] => List.Pairwise.nil
  | i, x :: xs => by
    refine List.Pairwise.cons ?_ (enumMap_pairwise_chunk_id mk hmk (i + 1) xs)
    intro d hd
    have h1 := enumMap_chunk_id_lb mk hmk (i + 1) xs d hd
    rw [hmk]
    omega

lemma string_eq_of_data_eq (s t : String) (h : s.data = t.data) : s = t := by
  cases s
  cases t
  exact congrArg String.mk (by simpa using h)

lemma up_source_inj (n1 n2 : String)
    (h : "uploaded_pdf_" ++ n1 = "uploaded_pdf_" ++ n2) : n1 = n2 := by
  have hd := congrArg String.data h
  rw [String.data_append, String.data_append] at hd
  exact string_eq_of_data_eq n1 n2 (List.append_cancel_left hd)

lemma plato_ne_up_source (n : String) :
    "platon_analisis_nlp.json" ≠ "uploaded_pdf_" ++ n := by
  intro h
  have hd := congrArg (fun s => s.data.head?) h
  simp [String.data_append] at hd

lemma uploadDocs_sources (provider ts : String) : ∀ (files : List UploadedFile)
    (d : Document), d ∈ (uploadDocs provider ts files).1 →
    ∃ f ∈ files, d.source = "uploaded_pdf_" ++ f.name
  | [], d => by simp [uploadDocs]
  | f :: rest, d => by
    intro hd
    cases hft : f.text with
    | none => simp [uploadDocs, hft] at hd
    | some t =>
      simp only [uploadDocs, hft] at hd
      rcases List.mem_append.mp hd with hd | hd
      · obtain ⟨j, c, rfl⟩ := mem_enumMap _ _ _ _ hd
        exact ⟨f, List.mem_cons_self f rest, rfl⟩
      · obtain ⟨g, hg, hgs⟩ := uploadDocs_sources provider ts rest d hd
        exact ⟨g, List.mem_cons_of_mem _ hg, hgs⟩

/-- With pairwise-distinct uploaded filenames, the staged upload documents
have pairwise-distinct `chunk_id`s within each source. -/
lemma uploadDocs_unique (provider ts : String) : ∀ (files : List UploadedFile),
    List.Pairwise (fun f g : UploadedFile => f.name ≠ g.name) files →
    uniqueChunkIds (uploadDocs provider ts files).1
  | [], _ => List.Pairwise.nil
  | f :: rest, hpw => by
    obtain ⟨hhead, htail⟩ := List.pairwise_cons.mp hpw
    cases hft : f.text with
    | none =>
      simp only [uniqueChunkIds, uploadDocs, hft]
      exact List.Pairwise.nil
    | some t =>
      simp only [uniqueChunkIds, uploadDocs, hft]
      refine List.pairwise_append.mpr ⟨?_, uploadDocs_unique provider ts rest htail, ?_⟩
      · refine List.Pairwise.imp ?_ (enumMap_pairwise_chunk_id (mkUploadDoc provider ts f.name)
          (fun _ _ => rfl) 0 (get_text_chunks t))
        intro a b hne
        exact fun _ => hne
      · intro a ha b hb hsrc
        obtain ⟨j, c, rfl⟩ := mem_enumMap _ _ _ _ ha
        obtain ⟨g, hg, hgs⟩ := uploadDocs_sources provider ts rest b hb
        have hfa : (mkUploadDoc provider ts f.name j c).source = "uploaded_pdf_" ++ f.name := rfl
        rw [hfa, hgs] at hsrc
        exact absurd (up_source_inj _ _ hsrc) (hhead g hg)

lemma load_ok_shape (fp : String) (r : ReadResult) (docs : List Document)
    (h : load_platon_json fp r = .ok docs) : ∃ data, docs = enumMap mkPlatonDoc 0 data := by
  cases r with
  | missing => simp [load_platon_json] at h
  | malformed => simp [load_platon_json] at h
  | parsed data =>
    simp only [load_platon_json] at h
    split at h
    · simp at h
    · exact ⟨data, (Except.ok.injEq _ _ ▸ h).symm⟩

lemma plato_docs_source (data : List PlatonItem) : ∀ (i : Nat) (d : Document),
    d ∈ enumMap mkPlatonDoc i data → d.source = "platon_analisis_nlp.json" := by
  intro i d hd
  obtain ⟨j, a, rfl⟩ := mem_enumMap _ _ _ _ hd
  rfl

/-- A fresh-store creation returns exactly the staged corpus + upload
documents. -/
lemma call_fresh_create (env : Env) (files : List UploadedFile) (provider : String)
    (hemb : get_embeddings provider env.google_api_key = .ok ())
    (hcreate : env.createFails = false) :
    ∃ r, get_or_create_vectorstore env none none files provider = .ok r ∧
      r.returned = (get_plato_documents none env.fileRead).1 ++
        (uploadDocs provider env.ts files).1 := by
  by_cases hemp : (get_plato_documents none env.fileRead).1 ++
      (uploadDocs provider env.ts files).1 = []
  · obtain ⟨hpc, hup0⟩ := List.append_eq_nil.mp hemp
    refine ⟨{ returned := [], persisted := some [],
              cache := (get_plato_documents none env.fileRead).2,
              log := [.creatingNew] ++ (uploadDocs provider env.ts files).2 ++
                [.creatingEmptyStructure] }, ?_, by rw [hemp]⟩
    simp only [get_or_create_vectorstore, hemb, hpc, hup0, Bool.false_eq_true, if_false,
      List.isEmpty_nil, if_true, List.nil_append, List.append_nil, List.append_assoc,
      Option.getD_none]
  · have hie : ((get_plato_documents none env.fileRead).1 ++
        (uploadDocs provider env.ts files).1).isEmpty = false := by
      cases hc : (get_plato_documents none env.fileRead).1 ++
          (uploadDocs provider env.ts files).1 with
      | nil => exact absurd hc hemp
      | cons a l => rfl
    refine ⟨{ returned := (get_plato_documents none env.fileRead).1 ++
                (uploadDocs provider env.ts files).1,
              persisted := some ((get_plato_documents none env.fileRead).1 ++
                (uploadDocs provider env.ts files).1),
              cache := (get_plato_documents none env.fileRead).2,
              log := [.creatingNew] ++
                (if (get_plato_documents none env.fileRead).1.isEmpty then []
                 else [.addingPlato (get_plato_documents none env.fileRead).1.length]) ++
                (uploadDocs provider env.ts files).2 ++
                [.createdNew ((get_plato_documents none env.fileRead).1 ++
                  (uploadDocs provider env.ts files).1).length] }, ?_, rfl⟩
    simp only [get_or_create_vectorstore, hemb, hie, hcreate, Bool.false_eq_true, if_false,
      Option.getD_none, List.nil_append, List.append_assoc]

/-- C8 (amended): `chunk_id`s are assigned sequentially per source within
each ingestion unit (the corpus batch, or one uploaded file), so in the
index produced by a single `get_or_create_vectorstore` call on a fresh
store and a fresh corpus cache with pairwise-distinct uploaded filenames,
`chunk_id` is unique within every source (and is not globally unique).
Re-uploading a file with the same name — in the same call or a later one —
violates per-source uniqueness (see the counterexample). -/
theorem chunk_id_unique_within_source (env : Env) (files : List UploadedFile)
    (provider : String)
    (hemb : get_embeddings provider env.google_api_key = .ok ())
    (hnames : List.Pairwise (fun f g : UploadedFile => f.name ≠ g.name) files)
    (hcreate : env.createFails = false) :
    ∃ r, get_or_create_vectorstore env none none files provider = .ok r ∧
      uniqueChunkIds r.returned := by
  obtain ⟨r, hr, hret⟩ := call_fresh_create env files provider hemb hcreate
  refine ⟨r, hr, ?_⟩
  rw [uniqueChunkIds, hret]
  have hplato : List.Pairwise (fun a b : Document => a.chunk_id ≠ b.chunk_id)
      (get_plato_documents none env.fileRead).1 ∧
      ∀ d ∈ (get_plato_documents none env.fileRead).1,
        d.source = "platon_analisis_nlp.json" := by
    cases hld : load_platon_json PLATON_JSON_PATH env.fileRead with
    | ok docs =>
      have h1 : (get_plato_documents none env.fileRead).1 = docs := by
        simp [get_plato_documents, hld]
      obtain ⟨data, rfl⟩ := load_ok_shape _ _ _ hld
      rw [h1]
      exact ⟨enumMap_pairwise_chunk_id mkPlatonDoc (fun _ _ => rfl) 0 data,
        plato_docs_source data 0⟩
    | error e =>
      have h1 : (get_plato_documents none env.fileRead).1 = [] := by
        simp [get_plato_documents, hld]
      rw [h1]
      exact ⟨List.Pairwise.nil, by simp⟩
  refine List.pairwise_append.mpr ⟨?_, uploadDocs_unique provider env.ts files hnames, ?_⟩
  · refine List.Pairwise.imp ?_ hplato.1
    intro a b hne
    exact fun _ => hne
  intro a ha b hb hsrc
  obtain ⟨g, _, hgs⟩ := uploadDocs_sources provider env.ts files b hb
  rw [hplato.2 a ha, hgs] at hsrc
  exact absurd hsrc (plato_ne_up_source g.name)

/-- Witness for `chunk_id_unique_within_source`: two uploads with distinct
filenames on a fresh store. -/
theorem chunk_id_unique_within_source_witness :
    List.Pairwise (fun f g : UploadedFile => f.name ≠ g.name)
      [⟨"a.pdf", some "x"⟩, ⟨"b.pdf", some "y"⟩] ∧
    (∃ r, get_or_create_vectorstore sampleEnv none none
        [⟨"a.pdf", some "x"⟩, ⟨"b.pdf", some "y"⟩] "Spanish LLM" = .ok r ∧
      uniqueChunkIds r.returned) := by
  have hnames : List.Pairwise (fun f g : UploadedFile => f.name ≠ g.name)
      [⟨"a.pdf", some "x"⟩, ⟨"b.pdf", some "y"⟩] := by
    refine List.Pairwise.cons ?_ (List.pairwise_singleton _ _)
    intro g hg
    rw [List.mem_singleton.mp hg]
    decide
  exact ⟨hnames, chunk_id_unique_within_source sampleEnv
    [⟨"a.pdf", some "x"⟩, ⟨"b.pdf", some "y"⟩] "Spanish LLM" rfl hnames rfl⟩

end LLMRag
